import Mathlib

/-!
Verification development for the CMS metastore extractor pipeline.

The Python sources are shallowly embedded as pure Lean functions:

* string helpers from utils.py: to_snake_case and the trim/lower
  primitives it is built from;
* the state store from utils.py: load_state and save_state over an
  explicit JSON value type, with file-system outcomes made explicit
  (missing file, unparseable file, parsed value);
* the pipeline from cms_metastore_extractor.py: the catalog filter of
  run_job, the CSV-distribution resolver, process_dataset with its
  download/transform effects tracked in an explicit effect log, the
  first-seen merge of run_job, and transform_data over a file system
  modelled as an association list from path to parsed CSV rows.

Machine-level I/O (HTTP transport, threads, logging) is abstracted into
oracles: a file-existence predicate and success predicates for download
and transform.
-/

namespace CMS

/-! ## Character and string primitives (utils.py) -/

/-- ASCII whitespace recognised by the Python str.strip default
(space, tab, newline, vertical tab, form feed, carriage return). -/
def pyIsSpace (c : Char) : Bool :=
  decide (c.toNat = 32 ∨ c.toNat = 9 ∨ c.toNat = 10 ∨ c.toNat = 11 ∨
    c.toNat = 12 ∨ c.toNat = 13)

/-- The character class a-zA-Z0-9 of the regex in to_snake_case. -/
def isAsciiAlnum (c : Char) : Bool :=
  decide ((48 ≤ c.toNat ∧ c.toNat ≤ 57) ∨ (65 ≤ c.toNat ∧ c.toNat ≤ 90) ∨
    (97 ≤ c.toNat ∧ c.toNat ≤ 122))

/-- Strip elements satisfying p from both ends of a list, modelling
Python str.strip. -/
def pyStripBy {α : Type} (p : α → Bool) (l : List α) : List α :=
  ((l.dropWhile p).reverse.dropWhile p).reverse

/-- Model of Python str.strip with no argument. -/
def pyTrim (s : String) : String := ⟨pyStripBy pyIsSpace s.data⟩

/-- Model of Python str.lower on the ASCII range. -/
def pyLowerStr (s : String) : String := ⟨s.data.map Char.toLower⟩

/-- re.sub of the class outside a-zA-Z0-9 by an underscore. -/
def subNonAlnum (l : List Char) : List Char :=
  l.map (fun c => if isAsciiAlnum c then c else '_')

/-- re.sub of a run of underscores by a single underscore. -/
def collapseUnderscores : List Char → List Char
  | [] => []
  | [c] => [c]
  | a :: b :: rest =>
    if a == '_' && b == '_' then collapseUnderscores (b :: rest)
    else a :: collapseUnderscores (b :: rest)

def isUnderscore (c : Char) : Bool := c == '_'

/-- utils.to_snake_case: strip whitespace, replace non-alphanumerics by
underscores, collapse underscore runs, strip underscores, lower-case. -/
def to_snake_case (s : String) : String :=
  let l1 := pyStripBy pyIsSpace s.data
  let l2 := subNonAlnum l1
  let l3 := collapseUnderscores l2
  let l4 := pyStripBy isUnderscore l3
  ⟨l4.map Char.toLower⟩

/-! ## Decimal rendering of the distribution ordinal (Python str(int)) -/

def digitChar (d : Nat) : Char :=
  match d with
  | 0 => '0' | 1 => '1' | 2 => '2' | 3 => '3' | 4 => '4'
  | 5 => '5' | 6 => '6' | 7 => '7' | 8 => '8' | _ => '9'

/-- Decimal digits of n, most significant first; fuel-structured so that
it computes by kernel reduction. -/
def natDigitsAux : Nat → Nat → List Char
  | 0, _ => []
  | fuel + 1, n =>
    if n < 10 then [digitChar n]
    else natDigitsAux fuel (n / 10) ++ [digitChar (n % 10)]

/-- Model of Python str applied to a non-negative int. -/
def natStr (n : Nat) : String := ⟨natDigitsAux (n + 1) n⟩

def digitVal (c : Char) : Nat := c.toNat - 48

def parseDigits (l : List Char) : Nat :=
  l.foldl (fun a c => a * 10 + digitVal c) 0

/-! ## JSON values and the state store (utils.load_state / utils.save_state) -/

/-- JSON values as produced by Python json.load; objects keep the key
order of the file, as Python dicts do. -/
inductive JVal where
  | null : JVal
  | bool : Bool → JVal
  | num : Int → JVal
  | str : String → JVal
  | arr : List JVal → JVal
  | obj : List (String × JVal) → JVal

def isObjJ : JVal → Bool
  | .obj _ => true
  | _ => false

/-- Python membership test key in dict. -/
def hasKey (fields : List (String × JVal)) (k : String) : Bool :=
  fields.any (fun p => p.1 == k)

/-- A stored state entry in its current record shape.  first_seen is
an Option because old record entries may lack the key. -/
structure StateRec where
  identifier : String
  distribution_id : String
  last_modified : Option String
  title : Option String
  last_processed : String
  first_seen : Option String
deriving DecidableEq, Repr

/-- A value of the datasets mapping: either a legacy flat
modified-token string or a record. -/
inductive SEntry where
  | legacy (tok : String)
  | record (r : StateRec)
deriving DecidableEq, Repr

/-- The in-memory state dict: a datasets mapping (insertion-ordered,
as a Python dict) and a last_run value. -/
structure PyState where
  datasets : List (String × SEntry)
  last_run : Option String
deriving DecidableEq, Repr

def optStrJ : Option String → JVal
  | none => .null
  | some s => .str s

/-- JSON shape of one stored entry; the first_seen key is present
exactly when the record carries one. -/
def entryToJson : SEntry → JVal
  | .legacy s => .str s
  | .record r =>
    .obj ([("identifier", .str r.identifier),
           ("distribution_id", .str r.distribution_id),
           ("last_modified", optStrJ r.last_modified),
           ("title", optStrJ r.title),
           ("last_processed", .str r.last_processed)] ++
          (match r.first_seen with
           | none => []
           | some t => [("first_seen", .str t)]))

/-- JSON shape of the whole state file written by save_state. -/
def stateToJson (st : PyState) : JVal :=
  .obj [("datasets", .obj (st.datasets.map (fun p => (p.1, entryToJson p.2)))),
        ("last_run", optStrJ st.last_run)]

def strOfJ : JVal → Option String
  | .str s => some s
  | _ => none

def optStrOfJ : JVal → Option (Option String)
  | .null => some none
  | .str s => some (some s)
  | _ => none

/-- Read one datasets value back from JSON. -/
def entryOfJson : JVal → Option SEntry
  | .str s => some (.legacy s)
  | .obj fields => do
    let idj ← fields.lookup "identifier"
    let id ← strOfJ idj
    let dj ← fields.lookup "distribution_id"
    let did ← strOfJ dj
    let lmj ← fields.lookup "last_modified"
    let lm ← optStrOfJ lmj
    let tj ← fields.lookup "title"
    let ti ← optStrOfJ tj
    let lpj ← fields.lookup "last_processed"
    let lp ← strOfJ lpj
    let fsn ← match fields.lookup "first_seen" with
      | none => some none
      | some v => (strOfJ v).map some
    some (.record ⟨id, did, lm, ti, lp, fsn⟩)
  | _ => none

def entriesOfJson : List (String × JVal) → Option (List (String × SEntry))
  | [] => some []
  | p :: rest => do
    let e ← entryOfJson p.2
    let es ← entriesOfJson rest
    some ((p.1, e) :: es)

/-- Read a whole state value back from JSON. -/
def stateOfJson : JVal → Option PyState
  | .obj fields => do
    let dj ← fields.lookup "datasets"
    match dj with
    | .obj dfields => do
      let ds ← entriesOfJson dfields
      let lr ← match fields.lookup "last_run" with
        | none => some none
        | some v => optStrOfJ v
      some ⟨ds, lr⟩
    | _ => none
  | _ => none

/-- Outcome of looking at the state file on disk. -/
inductive LoadInput where
  | missing : LoadInput
  | corrupt : LoadInput
  | parsed : JVal → LoadInput

def emptyStateJ : JVal := .obj [("datasets", .obj []), ("last_run", .null)]

/-- utils.load_state: missing file and unparseable file both give an
empty mapping with null last_run; a parsed dict without the datasets
key is wrapped as the legacy flat mapping; any other parsed value is
returned unchanged. -/
def load_state : LoadInput → JVal
  | .missing => emptyStateJ
  | .corrupt => emptyStateJ
  | .parsed j =>
    match j with
    | .obj fields =>
      if hasKey fields "datasets" then .obj fields
      else .obj [("datasets", .obj fields), ("last_run", .null)]
    | other => other

/-- utils.save_state: stamps last_run with the current time into the
caller's state dict, then serialises that same dict.  The pair returned
is the mutated in-memory state and the JSON value written to disk. -/
def save_state (st : PyState) (now : String) : PyState × JVal :=
  let st2 : PyState := { st with last_run := some now }
  (st2, stateToJson st2)

/-! ## Catalog records (cms_metastore_extractor.py) -/

/-- A theme or keyword list element: a string or some other JSON value
(non-strings are dropped by the tag normalisation). -/
inductive TagV where
  | str (s : String)
  | nonstr
deriving DecidableEq, Repr

structure Distribution where
  mediaType : Option String
  downloadURL : Option String
  format : Option String
deriving DecidableEq, Repr

/-- A dataset record from the metastore.  title distinguishes an absent
key (defaulted to the identifier) from a present null; theme and
keyword are none when the key is absent or not a list. -/
structure Dataset where
  identifier : Option String
  modified : Option String
  title : Option (Option String) := none
  distribution : List Distribution := []
  theme : Option (List TagV) := none
  keyword : Option (List TagV) := none
deriving DecidableEq, Repr

/-- Python truthiness of an optional string: None and the empty string
are falsy. -/
def pyTruthy : Option String → Bool
  | none => false
  | some s => !(s == "")

/-! ## Filter phase of run_job -/

def normTag (s : String) : String := pyLowerStr (pyTrim s)

/-- The configured filter terms, keeping strings only, trimmed and
lower-cased. -/
def normFilters (l : List TagV) : List String :=
  l.filterMap (fun t => match t with
    | .str s => some (normTag s)
    | .nonstr => none)

/-- The tag pool of one record: theme and keyword lists combined,
strings only, trimmed and lower-cased. -/
def itemTags (d : Dataset) : List String :=
  ((d.theme.getD []) ++ (d.keyword.getD [])).filterMap (fun t => match t with
    | .str s => some (normTag s)
    | .nonstr => none)

/-- The scanning loop of run_job: skip records with no tags, keep a
record when some configured term occurs among its tags. -/
def filterPhase : List Dataset → List String → List Dataset
  | [], _ => []
  | item :: rest, fl =>
    if (itemTags item).isEmpty then filterPhase rest fl
    else if fl.any (fun t => (itemTags item).contains t) then
      item :: filterPhase rest fl
    else filterPhase rest fl

def run_filter (metastore : List Dataset) (raw : List TagV) : List Dataset :=
  filterPhase metastore (normFilters raw)

/-! ## Distribution resolver and process_dataset -/

/-- Python str.endswith over the character lists. -/
def pyEndsWith (s t : String) : Bool := t.data.isSuffixOf s.data

/-- cms_metastore_extractor._get_csv_distributions eligibility test. -/
def isCsvDist (d : Distribution) : Bool :=
  pyLowerStr (d.mediaType.getD "") == "text/csv" ||
  pyLowerStr (d.format.getD "") == "csv" ||
  pyEndsWith (pyLowerStr (d.downloadURL.getD "")) ".csv"

def get_csv_distributions (ds : Dataset) : List Distribution :=
  ds.distribution.filter isCsvDist

def build_dist_suffix (i : Nat) : String := "distribution_" ++ natStr i

/-- The state key derived in process_dataset for ordinal i. -/
def stateKeyFor (id : String) (i : Nat) : String :=
  id ++ "::" ++ build_dist_suffix i

/-- cms_metastore_extractor._build_file_stem; a None title renders as
the Python string of None. -/
def build_file_stem (identifier : String) (title : Option String)
    (distSuffix : String) : String :=
  let ct := match title with
    | some s => to_snake_case s
    | none => "None"
  let ct2 := if 50 < ct.length then ct.take 50 else ct
  let stem := ct2 ++ "_" ++ identifier
  if distSuffix ≠ "" then stem ++ "_" ++ distSuffix else stem

/-- The distribution keys derived by the resolver loop of
process_dataset: CSV-eligible distributions enumerated from 1. -/
def resolvedKeys (ds : Dataset) (id : String) : List String :=
  (List.enumFrom 1 (get_csv_distributions ds)).map (fun p => stateKeyFor id p.1)

/-- Modelled from the spec words of the claim under test: each
CSV-eligible distribution keyed by its 1-based position among all
distributions of the dataset. -/
def claimKeys (ds : Dataset) (id : String) : List String :=
  ((List.enumFrom 1 ds.distribution).filter (fun p => isCsvDist p.2)).map
    (fun p => stateKeyFor id p.1)

/-- I/O effects performed by process_dataset, in order. -/
structure Effects where
  downloads : List String
  transforms : List String
  existsChecks : List String
deriving DecidableEq, Repr

def noEffects : Effects := ⟨[], [], []⟩

/-- Oracles for the outside world: file existence on disk and the
success of a download or a transform. -/
structure Env where
  fileExists : String → Bool
  downloadOk : String → Bool
  transformOk : String → Bool

/-- The record appended for one processed distribution (first_seen is
filled in later by run_job). -/
structure ProcRecordR where
  identifier : String
  distribution_id : String
  last_modified : Option String
  title : Option String
  last_processed : String
deriving DecidableEq, Repr

/-- The Python comparison state_datasets.get(state_key) == last_modified:
true only for a legacy flat string entry equal to the token; a missing
entry or a dict entry never equals a string. -/
def storedEqToken (sd : List (String × SEntry)) (key tok : String) : Bool :=
  match sd.lookup key with
  | some (.legacy s) => s == tok
  | _ => false

def outPathFor (outputDir id : String) (title : Option String) (i : Nat) : String :=
  outputDir ++ "/" ++ build_file_stem id title (build_dist_suffix i) ++ ".csv"

/-- One iteration of the up-to-date pre-check loop of process_dataset.
The existence check runs only when the two leading conjuncts hold,
mirroring the Python short-circuit. -/
def preStep (env : Env) (sd : List (String × SEntry)) (lm : Option String)
    (outputDir id : String) (title : Option String)
    (acc : Bool × List String) (p : Nat × Distribution) : Bool × List String :=
  if pyTruthy lm && storedEqToken sd (stateKeyFor id p.1) (lm.getD "") then
    let out := outPathFor outputDir id title p.1
    (acc.1 && env.fileExists out, acc.2 ++ [out])
  else
    (false, acc.2)

/-- One iteration of the download/transform loop of process_dataset. -/
def mainStep (env : Env) (sd : List (String × SEntry)) (lm : Option String)
    (outputDir landingDir id : String) (title : Option String) (now : String)
    (acc : List ProcRecordR × Effects) (p : Nat × Distribution) :
    List ProcRecordR × Effects :=
  let url := p.2.downloadURL.getD ""
  if url == "" then acc
  else
    let key := stateKeyFor id p.1
    let stem := build_file_stem id title (build_dist_suffix p.1)
    let raw := landingDir ++ "/" ++ stem ++ ".csv"
    let out := outputDir ++ "/" ++ stem ++ ".csv"
    let proceed := fun (eff : Effects) =>
      let eff1 : Effects := { eff with downloads := eff.downloads ++ [url] }
      if !env.downloadOk url then (acc.1, eff1)
      else
        let eff2 : Effects := { eff1 with transforms := eff1.transforms ++ [raw] }
        if !env.transformOk raw then (acc.1, eff2)
        else (acc.1 ++ [⟨id, key, lm, title, now⟩], eff2)
    if pyTruthy lm && storedEqToken sd key (lm.getD "") then
      let eff0 : Effects := { acc.2 with existsChecks := acc.2.existsChecks ++ [out] }
      if env.fileExists out then (acc.1, eff0) else proceed eff0
    else proceed acc.2

/-- cms_metastore_extractor.process_dataset over the effect model:
returns the optional list of processing records and the I/O performed. -/
def process_dataset (env : Env) (outputDir landingDir : String) (ds : Dataset)
    (sd : List (String × SEntry)) (now : String) :
    Option (List ProcRecordR) × Effects :=
  let identifier := ds.identifier
  let lm := ds.modified
  let title : Option String := match ds.title with
    | none => ds.identifier
    | some t => t
  if !pyTruthy identifier then (none, noEffects)
  else
    let id := identifier.getD ""
    let csvDists := get_csv_distributions ds
    if csvDists.isEmpty then (none, noEffects)
    else
      let enum1 := List.enumFrom 1 csvDists
      let pre := enum1.foldl (preStep env sd lm outputDir id title) (true, [])
      if pre.1 then (none, { noEffects with existsChecks := pre.2 })
      else
        let res := enum1.foldl (mainStep env sd lm outputDir landingDir id title now)
          ([], { noEffects with existsChecks := pre.2 })
        (if res.1.isEmpty then none else some res.1, res.2)

/-! ## State merge of run_job -/

/-- Python dict assignment d[k] = v on an insertion-ordered mapping:
replace in place when the key exists, append otherwise. -/
def assocSet {α : Type} : List (String × α) → String → α → List (String × α)
  | [], k, v => [(k, v)]
  | (k0, v0) :: rest, k, v =>
    if k0 == k then (k, v) :: rest
    else (k0, v0) :: assocSet rest k v

/-- The merge step of run_job for one processing record: keep the old
first_seen when the existing entry is a record carrying one, otherwise
stamp the record's own last_processed; then insert the entry. -/
def merge_entry (sd : List (String × SEntry)) (e : ProcRecordR) :
    List (String × SEntry) :=
  let fsVal := match sd.lookup e.distribution_id with
    | some (.record r) =>
      match r.first_seen with
      | some t => t
      | none => e.last_processed
    | _ => e.last_processed
  assocSet sd e.distribution_id
    (.record ⟨e.identifier, e.distribution_id, e.last_modified, e.title,
      e.last_processed, some fsVal⟩)

/-! ## transform_data over a parsed-CSV file system -/

/-- cms_metastore_extractor.transform_data: the file system maps a path
to the parsed rows of the file.  A missing input fails before the output
is opened; an existing input opens (creates or truncates) the output
before the header is read, so an empty input still leaves an empty
output file behind. -/
def transform_data (inputPath outputPath : String)
    (fs : List (String × List (List String))) :
    Bool × List (String × List (List String)) :=
  match fs.lookup inputPath with
  | none => (false, fs)
  | some rows =>
    match rows with
    | [] => (false, assocSet fs outputPath [])
    | header :: rest =>
      (true, assocSet fs outputPath ((header.map to_snake_case) :: rest))

/-! ## Character invariants of snake-cased output -/

/-- Characters that can appear after the underscore substitution:
underscore, digit, upper-case letter, lower-case letter. -/
def midChar (c : Char) : Prop :=
  c = '_' ∨ (48 ≤ c.toNat ∧ c.toNat ≤ 57) ∨ (65 ≤ c.toNat ∧ c.toNat ≤ 90) ∨
    (97 ≤ c.toNat ∧ c.toNat ≤ 122)

/-- Characters that can appear in a finished snake-cased string:
underscore, digit, lower-case letter. -/
def goodChar (c : Char) : Prop :=
  c = '_' ∨ (48 ≤ c.toNat ∧ c.toNat ≤ 57) ∨ (97 ≤ c.toNat ∧ c.toNat ≤ 122)

/-- No two adjacent underscores. -/
def NoDbl (l : List Char) : Prop :=
  List.Chain' (fun a b => ¬(a = '_' ∧ b = '_')) l

/-- The shape invariant of to_snake_case output: only lower-case
alphanumerics and underscores, no underscore run, no underscore at
either end. -/
def SnakeInv (l : List Char) : Prop :=
  (∀ c ∈ l, goodChar c) ∧ NoDbl l ∧
  (∀ a, l.head? = some a → a ≠ '_') ∧ (∀ a, l.getLast? = some a → a ≠ '_')

/-! ## Concrete inputs used by the closed theorems -/

/-- All downloads succeed, all transforms succeed, every path exists. -/
def envAll : Env := ⟨fun _ => true, fun _ => true, fun _ => true⟩

/-- A catalog record whose modified token matches the stored state. -/
def c1Dataset : Dataset :=
  { identifier := some "d1", modified := some "2024-01-01",
    title := some (some "Hospital Info"),
    distribution := [⟨some "text/csv", some "http://x/a.csv", none⟩],
    theme := some [.str "hospitals"] }

/-- The state a first run of the job leaves behind for c1Dataset: a
record entry whose last_modified equals the dataset's modified token. -/
def c1State : List (String × SEntry) :=
  [("d1::distribution_1",
    .record ⟨"d1", "d1::distribution_1", some "2024-01-01",
      some "Hospital Info", "t1", some "t1"⟩)]

/-- A staged file system holding one empty source file. -/
def c2Fs : List (String × List (List String)) := [("in.csv", [])]

/-- A state mapping with one record entry carrying first_seen T0. -/
def c3State : List (String × SEntry) :=
  [("k", .record ⟨"i", "k", some "m0", some "T", "t0", some "T0"⟩)]

/-- A fresh processing record for the same distribution key. -/
def c3Entry : ProcRecordR := ⟨"i", "k", some "m1", some "T", "t1"⟩

/-- A dataset whose first distribution is not CSV-eligible and whose
second is, so the two ordinal conventions disagree. -/
def c4Dataset : Dataset :=
  { identifier := some "d", modified := none,
    distribution := [⟨some "application/json", some "http://x/a.json", none⟩,
                     ⟨some "text/csv", some "http://x/b.csv", none⟩] }

/-- A dataset record with no identifier key. -/
def c8Dataset : Dataset := { identifier := none, modified := some "m" }

/-! ## Helper lemmas -/

theorem lookup_assocSet {α : Type} (sd : List (String × α)) (k : String) (v : α) :
    (assocSet sd k v).lookup k = some v := by
  induction sd with
  | nil => simp [assocSet, List.lookup]
  | cons hd tl ih =>
    obtain ⟨k0, v0⟩ := hd
    by_cases h : k0 = k
    · subst h
      simp [assocSet, List.lookup]
    · have hb : (k0 == k) = false := beq_eq_false_iff_ne.mpr h
      have hb2 : (k == k0) = false := beq_eq_false_iff_ne.mpr (Ne.symm h)
      simp [assocSet, hb, List.lookup, hb2, ih]

/-! ## C8: records lacking an identifier -/

/-- C8: for every dataset record whose identifier key is absent or
falsy, process_dataset returns None and performs no I/O at all: no
download, no transform, no file-existence check. -/
theorem process_dataset_no_identifier (env : Env) (od ld : String) (ds : Dataset)
    (sd : List (String × SEntry)) (now : String)
    (h : pyTruthy ds.identifier = false) :
    process_dataset env od ld ds sd now = (none, noEffects) := by
  simp [process_dataset, h]

theorem process_dataset_no_identifier_witness :
    process_dataset envAll "output" "landing" c8Dataset [] "t" = (none, noEffects) :=
  process_dataset_no_identifier envAll "output" "landing" c8Dataset [] "t" rfl

/-! ## C3: first-seen preservation in the run_job merge -/

/-- C3: merging a processing record keeps an existing first_seen of the
record entry stored under the same distribution key while last_processed
advances to the new record's own timestamp; when no prior entry carries
a first_seen (missing entry, legacy flat string, or a record without the
key), first_seen is set to the record's last_processed.  Hence a key's
first_seen never changes once set. -/
theorem merge_preserves_first_seen (sd : List (String × SEntry)) (e : ProcRecordR) :
    (∀ r0 T0, sd.lookup e.distribution_id = some (.record r0) →
      r0.first_seen = some T0 →
      (merge_entry sd e).lookup e.distribution_id =
        some (.record ⟨e.identifier, e.distribution_id, e.last_modified, e.title,
          e.last_processed, some T0⟩)) ∧
    ((match sd.lookup e.distribution_id with
      | some (.record r0) => r0.first_seen = none
      | _ => True) →
      (merge_entry sd e).lookup e.distribution_id =
        some (.record ⟨e.identifier, e.distribution_id, e.last_modified, e.title,
          e.last_processed, some e.last_processed⟩)) := by
  constructor
  · intro r0 T0 hl hfs
    simp [merge_entry, hl, hfs, lookup_assocSet]
  · intro h
    cases hl : sd.lookup e.distribution_id with
    | none => simp [merge_entry, hl, lookup_assocSet]
    | some v =>
      cases v with
      | legacy s => simp [merge_entry, hl, lookup_assocSet]
      | record r0 =>
        rw [hl] at h
        simp [merge_entry, hl, h, lookup_assocSet]

theorem merge_preserves_first_seen_witness :
    (merge_entry c3State c3Entry).lookup "k" =
      some (.record ⟨"i", "k", some "m1", some "T", "t1", some "T0"⟩) :=
  (merge_preserves_first_seen c3State c3Entry).1
    ⟨"i", "k", some "m0", some "T", "t0", some "T0"⟩ "T0" rfl rfl

/-! ## C2: transform of an empty source file -/

/-- C2 counterexample: on an empty source file, transform_data does
leave a file at the output path (the output is opened for writing
before the header check), refuting that no output file is produced. -/
theorem transform_empty_creates_output_file :
    ¬ ((transform_data "in.csv" "out.csv" c2Fs).2.lookup "out.csv" = none) := by
  decide

/-- C2 amended: for every staged file system whose source file exists
and is empty, transform_data logs the soft failure, returns failure and
writes no rows, but an empty output file is created at the output path. -/
theorem transform_empty_soft_failure (fs : List (String × List (List String)))
    (ip op : String) (h : fs.lookup ip = some []) :
    transform_data ip op fs = (false, assocSet fs op []) ∧
    (transform_data ip op fs).2.lookup op = some [] := by
  constructor
  · simp [transform_data, h]
  · simp [transform_data, h, lookup_assocSet]

theorem transform_empty_soft_failure_witness :
    transform_data "in.csv" "out.csv" c2Fs = (false, assocSet c2Fs "out.csv" []) ∧
    (transform_data "in.csv" "out.csv" c2Fs).2.lookup "out.csv" = some [] :=
  transform_empty_soft_failure c2Fs "in.csv" "out.csv" rfl

/-! ## C1: the second-run idempotence claim -/

/-- C1 is violated by the code: after a first run the state stores
record entries, and the pre-check of process_dataset compares the whole
stored entry with the modified token, so it can never match a record.
At this input the stored record's last_modified equals the dataset's
modified token and every output file exists, yet the second invocation
still performs a download. -/
theorem second_run_still_downloads :
    (∃ r, c1State.lookup "d1::distribution_1" = some (.record r) ∧
      r.last_modified = c1Dataset.modified) ∧
    envAll.fileExists "output/hospital_info_d1_distribution_1.csv" = true ∧
    (process_dataset envAll "output" "landing" c1Dataset c1State "t2").2.downloads =
      ["http://x/a.csv"] := by
  exact ⟨⟨⟨"d1", "d1::distribution_1", some "2024-01-01", some "Hospital Info",
    "t1", some "t1"⟩, rfl, rfl⟩, rfl, by decide⟩

/-! ## C7: the filter phase of run_job -/

theorem filterPhase_mem (l : List Dataset) (fl : List String) (item : Dataset) :
    item ∈ filterPhase l fl ↔ item ∈ l ∧ ∃ t ∈ fl, t ∈ itemTags item := by
  induction l with
  | nil => simp [filterPhase]
  | cons a rest ih =>
    have heq : filterPhase (a :: rest) fl =
        if (itemTags a).isEmpty then filterPhase rest fl
        else if fl.any (fun t => (itemTags a).contains t) then
          a :: filterPhase rest fl
        else filterPhase rest fl := rfl
    by_cases h1 : (itemTags a).isEmpty
    · rw [heq, if_pos h1, ih]
      constructor
      · rintro ⟨hm, hp⟩
        exact ⟨List.mem_cons.mpr (Or.inr hm), hp⟩
      · rintro ⟨hm, hp⟩
        rcases List.mem_cons.mp hm with hm | hm
        · obtain ⟨t, _, hti⟩ := hp
          rw [hm] at hti
          rw [List.isEmpty_iff.mp h1] at hti
          simp at hti
        · exact ⟨hm, hp⟩
    · by_cases h2 : fl.any (fun t => (itemTags a).contains t)
      · rw [heq, if_neg h1, if_pos h2]
        constructor
        · intro hm
          rcases List.mem_cons.mp hm with hm | hm
          · subst hm
            obtain ⟨t, htfl, htc⟩ := List.any_eq_true.mp h2
            refine ⟨List.mem_cons_self _ _, t, htfl, ?_⟩
            simpa using htc
          · obtain ⟨hm2, hp⟩ := ih.mp hm
            exact ⟨List.mem_cons.mpr (Or.inr hm2), hp⟩
        · rintro ⟨hm, hp⟩
          rcases List.mem_cons.mp hm with hm | hm
          · exact List.mem_cons.mpr (Or.inl hm)
          · exact List.mem_cons.mpr (Or.inr (ih.mpr ⟨hm, hp⟩))
      · rw [heq, if_neg h1, if_neg h2, ih]
        constructor
        · rintro ⟨hm, hp⟩
          exact ⟨List.mem_cons.mpr (Or.inr hm), hp⟩
        · rintro ⟨hm, hp⟩
          rcases List.mem_cons.mp hm with hm | hm
          · exfalso
            apply h2
            obtain ⟨t, htfl, hti⟩ := hp
            rw [hm] at hti
            refine List.any_eq_true.mpr ⟨t, htfl, ?_⟩
            simpa using hti
          · exact ⟨hm, hp⟩

theorem filterPhase_no_filters (l : List Dataset) : filterPhase l [] = [] := by
  induction l with
  | nil => rfl
  | cons a rest ih => simp [filterPhase, ih]

/-- C7: the filter phase selects exactly the catalog records whose
trimmed, lower-cased theme and keyword tags meet the trimmed,
lower-cased filter set; a record with no tags has no matching tag and
is excluded, and an empty filter list selects no record. -/
theorem filter_selects_matching_records (metastore : List Dataset) (raw : List TagV) :
    (∀ item, item ∈ run_filter metastore raw ↔
      item ∈ metastore ∧ ∃ t ∈ normFilters raw, t ∈ itemTags item) ∧
    run_filter metastore [] = [] :=
  ⟨fun item => filterPhase_mem metastore (normFilters raw) item,
   filterPhase_no_filters metastore⟩

/-! ## C4: distribution keys and their ordinals -/

theorem digitVal_digitChar (d : Nat) (h : d < 10) : digitVal (digitChar d) = d := by
  interval_cases d <;> decide

theorem parseDigits_append_one (l : List Char) (c : Char) :
    parseDigits (l ++ [c]) = parseDigits l * 10 + digitVal c := by
  simp [parseDigits, List.foldl_append]

theorem parse_natDigitsAux (fuel : Nat) :
    ∀ n, n < fuel → parseDigits (natDigitsAux fuel n) = n := by
  induction fuel with
  | zero => intro n h; omega
  | succ f ih =>
    intro n h
    by_cases h10 : n < 10
    · rw [show natDigitsAux (f + 1) n = [digitChar n] from by
        simp [natDigitsAux, h10]]
      simp [parseDigits, digitVal_digitChar n h10]
    · have hdiv : n / 10 < f := by
        have h1 : n / 10 < n := Nat.div_lt_self (by omega) (by omega)
        omega
      rw [show natDigitsAux (f + 1) n =
        natDigitsAux f (n / 10) ++ [digitChar (n % 10)] from by
        simp [natDigitsAux, h10]]
      rw [parseDigits_append_one, ih (n / 10) hdiv,
        digitVal_digitChar (n % 10) (Nat.mod_lt n (by omega))]
      have := Nat.div_add_mod n 10
      omega

theorem natStr_inj (m n : Nat) (h : natStr m = natStr n) : m = n := by
  have hd : natDigitsAux (m + 1) m = natDigitsAux (n + 1) n :=
    congrArg String.data h
  have hp := congrArg parseDigits hd
  rw [parse_natDigitsAux (m + 1) m (by omega),
    parse_natDigitsAux (n + 1) n (by omega)] at hp
  exact hp

theorem stateKeyFor_inj (id : String) : Function.Injective (stateKeyFor id) := by
  intro i j h
  have hd : id.data ++ ("::".data ++ ("distribution_".data ++ (natStr i).data)) =
      id.data ++ ("::".data ++ ("distribution_".data ++ (natStr j).data)) := by
    have h2 := congrArg String.data h
    simpa [stateKeyFor, build_dist_suffix, String.data_append,
      List.append_assoc] using h2
  have h3 := List.append_cancel_left (List.append_cancel_left
    (List.append_cancel_left hd))
  exact natStr_inj i j (String.ext h3)

/-- C4 counterexample: on a dataset whose first distribution is not
CSV-eligible, the key the code derives uses the ordinal within the
filtered CSV subset, not the position among all distributions of the
dataset, so the two key derivations disagree. -/
theorem resolver_ordinal_counterexample :
    resolvedKeys c4Dataset "d" ≠ claimKeys c4Dataset "d" := by decide

/-- C4 amended: the resolver pairs each CSV-eligible distribution with
a 1-based ordinal over the filtered CSV subset (not over all
distributions), derives the key from the identifier and that ordinal,
and the keys so derived are unique within the dataset. -/
theorem resolver_keys_csv_ordinals_unique (ds : Dataset) (id : String) :
    resolvedKeys ds id =
      (List.range' 1 (get_csv_distributions ds).length).map (stateKeyFor id) ∧
    (resolvedKeys ds id).Nodup := by
  have h : resolvedKeys ds id =
      (List.range' 1 (get_csv_distributions ds).length).map (stateKeyFor id) := by
    rw [resolvedKeys, ← List.enumFrom_map_fst 1 (get_csv_distributions ds),
      List.map_map]
    rfl
  exact ⟨h, h ▸ List.Nodup.map (stateKeyFor_inj id) (List.nodup_range' 1 _)⟩

/-! ## C5, C6, C10: the state store -/

theorem entry_roundtrip (e : SEntry) : entryOfJson (entryToJson e) = some e := by
  cases e with
  | legacy s => rfl
  | record r =>
    obtain ⟨id, did, lm, ti, lp, fsn⟩ := r
    cases lm <;> cases ti <;> cases fsn <;> rfl

theorem entries_roundtrip (l : List (String × SEntry)) :
    entriesOfJson (l.map (fun p => (p.1, entryToJson p.2))) = some l := by
  induction l with
  | nil => rfl
  | cons p t ih =>
    simp [entriesOfJson, entry_roundtrip, ih]

theorem state_roundtrip (st : PyState) : stateOfJson (stateToJson st) = some st := by
  obtain ⟨ds, lr⟩ := st
  have h1 : entriesOfJson (ds.map (fun p => (p.1, entryToJson p.2))) = some ds :=
    entries_roundtrip ds
  cases lr <;> simp [stateToJson, stateOfJson, List.lookup, h1, optStrJ, optStrOfJ]

/-- C5: saving any state mapping and loading it back from the same path
yields a state equal to the one saved, except that last_run is refreshed
to the timestamp stamped during save. -/
theorem save_load_round_trip (st : PyState) (now : String) :
    stateOfJson (load_state (.parsed (save_state st now).2)) =
      some { st with last_run := some now } := by
  have h : load_state (.parsed (save_state st now).2) =
      stateToJson { st with last_run := some now } := by
    simp [save_state, load_state, stateToJson, hasKey]
  rw [h, state_roundtrip]

/-- C6 counterexample: a parseable state file whose top level is not a
dict, such as a JSON array, lacks the datasets wrapper key but is
returned unchanged rather than wrapped as the inner mapping. -/
theorem load_state_nondict_not_wrapped :
    ¬ (load_state (.parsed (.arr [])) =
       .obj [("datasets", .arr []), ("last_run", .null)]) := by
  simp [load_state]

/-- C6 amended: load_state is total and never raises: a missing file
and an unparseable file both give an empty mapping with null last_run;
a parsed dict lacking the datasets wrapper key is wrapped as the inner
mapping with null last_run; any non-dict parsed value is returned
unchanged. -/
theorem load_state_never_fails :
    load_state .missing = emptyStateJ ∧
    load_state .corrupt = emptyStateJ ∧
    (∀ fields, hasKey fields "datasets" = false →
      load_state (.parsed (.obj fields)) =
        .obj [("datasets", .obj fields), ("last_run", .null)]) ∧
    (∀ j, isObjJ j = false → load_state (.parsed j) = j) := by
  refine ⟨rfl, rfl, ?_, ?_⟩
  · intro fields h
    simp [load_state, h]
  · intro j h
    cases j <;> simp_all [load_state, isObjJ]

theorem load_state_never_fails_witness :
    load_state (.parsed (.obj [("k", .str "v")])) =
      .obj [("datasets", .obj [("k", .str "v")]), ("last_run", .null)] ∧
    load_state (.parsed (.str "oops")) = .str "oops" :=
  ⟨load_state_never_fails.2.2.1 [("k", .str "v")] rfl,
   load_state_never_fails.2.2.2 (.str "oops") rfl⟩

/-- C10: save_state stamps a fresh last_run into the caller's state
before serialising, so the state handed back to the caller has the new
last_run (the pre-save value is overwritten) and is exactly the state
written to disk. -/
theorem save_state_mutates_last_run (st : PyState) (now : String) :
    (save_state st now).1.last_run = some now ∧
    (save_state st now).1 = { st with last_run := some now } ∧
    (save_state st now).2 = stateToJson (save_state st now).1 ∧
    stateOfJson (save_state st now).2 = some (save_state st now).1 :=
  ⟨rfl, rfl, rfl, state_roundtrip _⟩

/-! ## C9: idempotence of to_snake_case -/

theorem charOfNat_toNat {n : Nat} (h : n < 55296) : (Char.ofNat n).toNat = n := by
  have h2 : n.isValidChar := Or.inl h
  simp [Char.ofNat, h2, Char.ofNatAux, Char.toNat, UInt32.toNat, BitVec.toNat_ofNatLt]

theorem toLower_eq_self {c : Char} (h : ¬(65 ≤ c.toNat ∧ c.toNat ≤ 90)) :
    Char.toLower c = c := by
  unfold Char.toLower
  rw [if_neg]
  exact fun ⟨h1, h2⟩ => h ⟨h1, h2⟩

theorem toLower_upper_toNat {c : Char} (h : 65 ≤ c.toNat ∧ c.toNat ≤ 90) :
    (Char.toLower c).toNat = c.toNat + 32 := by
  unfold Char.toLower
  rw [if_pos ⟨h.1, h.2⟩]
  exact charOfNat_toNat (by omega)

theorem toLower_underscore_eq {c : Char} (h : Char.toLower c = '_') : c = '_' := by
  by_cases hc : 65 ≤ c.toNat ∧ c.toNat ≤ 90
  · exfalso
    have h1 := toLower_upper_toNat hc
    have h2 := congrArg Char.toNat h
    rw [h1] at h2
    have h3 : ('_' : Char).toNat = 95 := by decide
    omega
  · rwa [toLower_eq_self hc] at h

theorem good_toNat {c : Char} (h : goodChar c) :
    c.toNat = 95 ∨ (48 ≤ c.toNat ∧ c.toNat ≤ 57) ∨
      (97 ≤ c.toNat ∧ c.toNat ≤ 122) := by
  rcases h with h | h | h
  · subst h; left; decide
  · right; left; exact h
  · right; right; exact h

theorem good_not_space {c : Char} (h : goodChar c) : pyIsSpace c = false := by
  have := good_toNat h
  simp only [pyIsSpace, decide_eq_false_iff_not]
  omega

theorem good_sub_fix {c : Char} (h : goodChar c) :
    (if isAsciiAlnum c then c else '_') = c := by
  rcases h with h | h | h
  · subst h; rfl
  · rw [if_pos]
    simp only [isAsciiAlnum, decide_eq_true_eq]
    omega
  · rw [if_pos]
    simp only [isAsciiAlnum, decide_eq_true_eq]
    omega

theorem good_lower_fix {c : Char} (h : goodChar c) : Char.toLower c = c := by
  apply toLower_eq_self
  have := good_toNat h
  omega

theorem mid_of_sub {l : List Char} {c : Char} (h : c ∈ subNonAlnum l) :
    midChar c := by
  simp only [subNonAlnum, List.mem_map] at h
  obtain ⟨x, _, he⟩ := h
  by_cases ha : isAsciiAlnum x
  · rw [if_pos ha] at he
    subst he
    simp only [isAsciiAlnum, decide_eq_true_eq] at ha
    rcases ha with ha | ha | ha
    · exact Or.inr (Or.inl ha)
    · exact Or.inr (Or.inr (Or.inl ha))
    · exact Or.inr (Or.inr (Or.inr ha))
  · rw [if_neg ha] at he
    subst he
    exact Or.inl rfl

theorem good_of_lower_mid {c : Char} (h : midChar c) :
    goodChar (Char.toLower c) := by
  rcases h with h | h | h | h
  · subst h
    have he : Char.toLower '_' = '_' := by decide
    rw [he]
    exact Or.inl rfl
  · rw [toLower_eq_self (by omega)]
    exact Or.inr (Or.inl h)
  · have ht := toLower_upper_toNat h
    exact Or.inr (Or.inr (by omega))
  · rw [toLower_eq_self (by omega)]
    exact Or.inr (Or.inr h)

theorem dropWhile_eq_self_of_head {α : Type} (p : α → Bool) (l : List α)
    (h : ∀ a, l.head? = some a → p a = false) : l.dropWhile p = l := by
  cases l with
  | nil => rfl
  | cons a t =>
    have := h a rfl
    simp [List.dropWhile_cons, this]

theorem head?_dropWhile {α : Type} (p : α → Bool) :
    ∀ (l : List α) (a : α), (l.dropWhile p).head? = some a → p a = false := by
  intro l
  induction l with
  | nil => intro a h; simp [List.dropWhile] at h
  | cons x t ih =>
    intro a h
    by_cases hx : p x
    · rw [List.dropWhile_cons, if_pos hx] at h
      exact ih a h
    · rw [List.dropWhile_cons, if_neg hx] at h
      simp only [List.head?_cons, Option.some.injEq] at h
      subst h
      simpa using hx

theorem getLast?_dropWhile {α : Type} (p : α → Bool) :
    ∀ (l : List α), l.dropWhile p ≠ [] →
      (l.dropWhile p).getLast? = l.getLast? := by
  intro l
  induction l with
  | nil => intro h; simp [List.dropWhile] at h
  | cons x t ih =>
    intro hne
    by_cases hx : p x
    · rw [List.dropWhile_cons, if_pos hx] at hne ⊢
      rw [ih hne]
      cases t with
      | nil => simp [List.dropWhile] at hne
      | cons y u => rw [List.getLast?_cons_cons]
    · rw [List.dropWhile_cons, if_neg hx]

theorem pyStripBy_head {α : Type} (p : α → Bool) (l : List α) (a : α)
    (h : (pyStripBy p l).head? = some a) : p a = false := by
  unfold pyStripBy at h
  rw [List.head?_reverse] at h
  have hne : (l.dropWhile p).reverse.dropWhile p ≠ [] := by
    intro h0
    rw [h0] at h
    simp at h
  rw [getLast?_dropWhile p _ hne, List.getLast?_reverse] at h
  exact head?_dropWhile p l a h

theorem pyStripBy_last {α : Type} (p : α → Bool) (l : List α) (a : α)
    (h : (pyStripBy p l).getLast? = some a) : p a = false := by
  unfold pyStripBy at h
  rw [List.getLast?_reverse] at h
  exact head?_dropWhile p _ a h

theorem pyStripBy_eq_self {α : Type} (p : α → Bool) (l : List α)
    (hh : ∀ a, l.head? = some a → p a = false)
    (hl : ∀ a, l.getLast? = some a → p a = false) : pyStripBy p l = l := by
  unfold pyStripBy
  rw [dropWhile_eq_self_of_head p l hh]
  rw [dropWhile_eq_self_of_head p l.reverse
    (fun a ha => hl a (by rwa [List.head?_reverse] at ha))]
  exact List.reverse_reverse l

theorem mem_pyStripBy {α : Type} {p : α → Bool} {l : List α} {c : α}
    (h : c ∈ pyStripBy p l) : c ∈ l := by
  unfold pyStripBy at h
  rw [List.mem_reverse] at h
  have h2 := (List.dropWhile_sublist p).subset h
  rw [List.mem_reverse] at h2
  exact (List.dropWhile_sublist p).subset h2

theorem mem_collapse : ∀ (l : List Char) (c : Char),
    c ∈ collapseUnderscores l → c ∈ l
  | [], c, h => by simp [collapseUnderscores] at h
  | [a], c, h => by simpa [collapseUnderscores] using h
  | a :: b :: rest, c, h => by
    have heq : collapseUnderscores (a :: b :: rest) =
        if a == '_' && b == '_' then collapseUnderscores (b :: rest)
        else a :: collapseUnderscores (b :: rest) := rfl
    rw [heq] at h
    by_cases hab : (a == '_' && b == '_') = true
    · rw [if_pos hab] at h
      exact List.mem_cons.mpr (Or.inr (mem_collapse (b :: rest) c h))
    · rw [if_neg hab] at h
      rcases List.mem_cons.mp h with h | h
      · exact List.mem_cons.mpr (Or.inl h)
      · exact List.mem_cons.mpr (Or.inr (mem_collapse (b :: rest) c h))

theorem collapse_head (b : Char) (r : List Char) :
    ∃ c t, collapseUnderscores (b :: r) = c :: t ∧ (c = '_' ↔ b = '_') := by
  induction r generalizing b with
  | nil => exact ⟨b, [], rfl, Iff.rfl⟩
  | cons y u ih =>
    have heq : collapseUnderscores (b :: y :: u) =
        if b == '_' && y == '_' then collapseUnderscores (y :: u)
        else b :: collapseUnderscores (y :: u) := rfl
    by_cases hby : (b == '_' && y == '_') = true
    · rw [heq, if_pos hby]
      obtain ⟨c, t, hct, hcy⟩ := ih y
      simp only [Bool.and_eq_true, beq_iff_eq] at hby
      exact ⟨c, t, hct, by rw [hcy, hby.1, hby.2]⟩
    · rw [heq, if_neg hby]
      exact ⟨b, collapseUnderscores (y :: u), rfl, Iff.rfl⟩

theorem nodbl_collapse : ∀ (l : List Char), NoDbl (collapseUnderscores l)
  | [] => List.chain'_nil
  | [c] => by simp [collapseUnderscores, NoDbl]
  | a :: b :: rest => by
    have heq : collapseUnderscores (a :: b :: rest) =
        if a == '_' && b == '_' then collapseUnderscores (b :: rest)
        else a :: collapseUnderscores (b :: rest) := rfl
    by_cases hab : (a == '_' && b == '_') = true
    · rw [NoDbl, heq, if_pos hab]
      exact nodbl_collapse (b :: rest)
    · rw [NoDbl, heq, if_neg hab]
      obtain ⟨c, t, hct, hcb⟩ := collapse_head b rest
      rw [hct]
      have h2 := nodbl_collapse (b :: rest)
      rw [NoDbl, hct] at h2
      refine List.chain'_cons.mpr ⟨?_, h2⟩
      rintro ⟨ha, hc⟩
      apply hab
      simp only [Bool.and_eq_true, beq_iff_eq]
      exact ⟨ha, hcb.mp hc⟩

theorem nodbl_dropWhile (p : Char → Bool) :
    ∀ (l : List Char), NoDbl l → NoDbl (l.dropWhile p) := by
  intro l
  induction l with
  | nil => intro h; simpa [List.dropWhile] using h
  | cons x t ih =>
    intro h
    by_cases hx : p x
    · rw [List.dropWhile_cons, if_pos hx]
      exact ih h.tail
    · rw [List.dropWhile_cons, if_neg hx]
      exact h

theorem nodbl_reverse {l : List Char} (h : NoDbl l) : NoDbl l.reverse := by
  rw [NoDbl, List.chain'_reverse]
  exact h.imp (fun a b hab => fun ⟨hb, ha⟩ => hab ⟨ha, hb⟩)

theorem nodbl_strip (p : Char → Bool) (l : List Char) (h : NoDbl l) :
    NoDbl (pyStripBy p l) := by
  unfold pyStripBy
  exact nodbl_reverse (nodbl_dropWhile p _ (nodbl_reverse (nodbl_dropWhile p l h)))

theorem nodbl_map_toLower (l : List Char) (h : NoDbl l) :
    NoDbl (l.map Char.toLower) := by
  rw [NoDbl, List.chain'_map]
  exact h.imp (fun a b hab => fun ⟨ha, hb⟩ =>
    hab ⟨toLower_underscore_eq ha, toLower_underscore_eq hb⟩)

theorem map_fix_id {α : Type} (l : List α) (f : α → α)
    (h : ∀ c ∈ l, f c = c) : l.map f = l := by
  induction l with
  | nil => rfl
  | cons a t ih =>
    simp only [List.map_cons, h a (List.mem_cons_self a t)]
    rw [ih (fun c hc => h c (List.mem_cons.mpr (Or.inr hc)))]

theorem collapse_id : ∀ (l : List Char), NoDbl l → collapseUnderscores l = l
  | [], _ => rfl
  | [c], _ => rfl
  | a :: b :: rest, h => by
    have hR : ¬(a = '_' ∧ b = '_') := (List.chain'_cons.mp h).1
    have hab : ¬((a == '_' && b == '_') = true) := by
      simpa [Bool.and_eq_true, beq_iff_eq] using hR
    have heq : collapseUnderscores (a :: b :: rest) =
        if a == '_' && b == '_' then collapseUnderscores (b :: rest)
        else a :: collapseUnderscores (b :: rest) := rfl
    rw [heq, if_neg hab, collapse_id (b :: rest) (List.chain'_cons.mp h).2]

theorem mem_of_head? {α : Type} {l : List α} {a : α} (h : l.head? = some a) :
    a ∈ l := by
  cases l with
  | nil => simp at h
  | cons x t =>
    simp only [List.head?_cons, Option.some.injEq] at h
    exact h ▸ List.mem_cons_self x t

theorem mem_of_getLast? {α : Type} {l : List α} {a : α}
    (h : l.getLast? = some a) : a ∈ l := by
  rw [← List.head?_reverse] at h
  rw [← List.mem_reverse]
  exact mem_of_head? h

theorem to_snake_case_data (s : String) :
    (to_snake_case s).data =
      (pyStripBy isUnderscore (collapseUnderscores
        (subNonAlnum (pyStripBy pyIsSpace s.data)))).map Char.toLower := rfl

/-- The shape invariant holds of every to_snake_case output. -/
theorem snake_inv (s : String) : SnakeInv (to_snake_case s).data := by
  rw [to_snake_case_data]
  refine ⟨?_, ?_, ?_, ?_⟩
  · intro c hc
    rw [List.mem_map] at hc
    obtain ⟨x, hx, he⟩ := hc
    have hx2 := mem_collapse (subNonAlnum (pyStripBy pyIsSpace s.data)) x
      (mem_pyStripBy hx)
    exact he ▸ good_of_lower_mid (mid_of_sub hx2)
  · exact nodbl_map_toLower _ (nodbl_strip _ _ (nodbl_collapse _))
  · intro a ha
    rw [List.head?_map] at ha
    obtain ⟨x, hx, hxa⟩ := Option.map_eq_some'.mp ha
    have hu := pyStripBy_head isUnderscore _ x hx
    rw [isUnderscore, beq_eq_false_iff_ne] at hu
    intro hcon
    exact hu (toLower_underscore_eq (by rw [hxa]; exact hcon))
  · intro a ha
    rw [List.getLast?_map] at ha
    obtain ⟨x, hx, hxa⟩ := Option.map_eq_some'.mp ha
    have hu := pyStripBy_last isUnderscore _ x hx
    rw [isUnderscore, beq_eq_false_iff_ne] at hu
    intro hcon
    exact hu (toLower_underscore_eq (by rw [hxa]; exact hcon))

/-- C9: header normalisation is idempotent: applying to_snake_case to
an already snake-cased string yields the same string. -/
theorem to_snake_case_idempotent (s : String) :
    to_snake_case (to_snake_case s) = to_snake_case s := by
  obtain ⟨hgood, hnd, hh, hl⟩ := snake_inv s
  apply String.ext
  have hcalc := to_snake_case_data (to_snake_case s)
  have h1 : pyStripBy pyIsSpace (to_snake_case s).data = (to_snake_case s).data :=
    pyStripBy_eq_self _ _
      (fun a ha => good_not_space (hgood a (mem_of_head? ha)))
      (fun a ha => good_not_space (hgood a (mem_of_getLast? ha)))
  have h2 : subNonAlnum (to_snake_case s).data = (to_snake_case s).data :=
    map_fix_id _ _ (fun c hc => good_sub_fix (hgood c hc))
  have h3 : collapseUnderscores (to_snake_case s).data = (to_snake_case s).data :=
    collapse_id _ hnd
  have h4 : pyStripBy isUnderscore (to_snake_case s).data = (to_snake_case s).data :=
    pyStripBy_eq_self _ _
      (fun a ha => by rw [isUnderscore, beq_eq_false_iff_ne]; exact hh a ha)
      (fun a ha => by rw [isUnderscore, beq_eq_false_iff_ne]; exact hl a ha)
  have h5 : (to_snake_case s).data.map Char.toLower = (to_snake_case s).data :=
    map_fix_id _ _ (fun c hc => good_lower_fix (hgood c hc))
  rw [hcalc, h1, h2, h3, h4, h5]

end CMS

